import Mathlib

/-!
Verification of the straight-skeleton wrapper (src/main.cpp) against its
natural-language specification.

The repository consists of a thin emscripten wrapper class SkeletonManager
around CGAL's straight-skeleton subsystem.  The wrapper itself
(compute_skeletons, offset_polygon, get_skeleton_info, create_from_js_array)
is embedded here directly from src/main.cpp.  The CGAL entry points it calls
(create_interior_straight_skeleton_2, create_exterior_straight_skeleton_2,
create_offset_polygons_2) are not part of this repository; they are modelled
from the specification (wavefront propagation with edge-collapse events,
straddling-half-edge offset extraction).  Coordinates are rational numbers;
the model is exact where the C++ uses doubles.
-/

/-- A 2D point; the spec's Point (coordinates are modelled as rationals). -/
def Pt : Type := Rat × Rat

deriving instance DecidableEq, Repr, Inhabited for Pt

/-- Rational addition, written through Rat.divInt so that every concrete
evaluation reduces definitionally (the library arithmetic is sealed against
unfolding); Rat.divInt normalises, so the result is the exact rational sum. -/
def radd (a b : Rat) : Rat :=
  Rat.divInt (a.num * (b.den : Int) + b.num * (a.den : Int)) ((a.den : Int) * (b.den : Int))

/-- Rational subtraction through Rat.divInt (see radd). -/
def rsub (a b : Rat) : Rat :=
  Rat.divInt (a.num * (b.den : Int) - b.num * (a.den : Int)) ((a.den : Int) * (b.den : Int))

/-- Rational multiplication through Rat.divInt (see radd). -/
def rmul (a b : Rat) : Rat :=
  Rat.divInt (a.num * b.num) ((a.den : Int) * (b.den : Int))

/-- Rational division through Rat.divInt (see radd); division by zero yields
zero, matching the library convention. -/
def rdiv (a b : Rat) : Rat :=
  Rat.divInt (a.num * (b.den : Int)) ((a.den : Int) * b.num)

/-- Componentwise addition of points/vectors. -/
def vadd (a b : Pt) : Pt := (radd a.1 b.1, radd a.2 b.2)

/-- Componentwise subtraction of points/vectors. -/
def vsub (a b : Pt) : Pt := (rsub a.1 b.1, rsub a.2 b.2)

/-- Scalar multiplication of a vector. -/
def smul (c : Rat) (a : Pt) : Pt := (rmul c a.1, rmul c a.2)

/-- Downward search step for the integer square root. -/
def isqrtAux (n : Nat) : Nat → Nat
  | 0 => 0
  | k + 1 => if (k + 1) * (k + 1) ≤ n then k + 1 else isqrtAux n k

/-- Integer square root by (structural) downward search, so that every
evaluation reduces inside the kernel. -/
def isqrt (n : Nat) : Nat := isqrtAux n n

/-- Rational square root: returns the exact square root when it is rational,
otherwise none (degenerate-safe, per the spec's Geometry Kernel contract). -/
def ratSqrt (q : Rat) : Option Rat :=
  if q < 0 then none
  else
    if isqrt q.num.toNat * isqrt q.num.toNat = q.num.toNat ∧
        isqrt q.den * isqrt q.den = q.den then
      some (rdiv (isqrt q.num.toNat : Rat) (isqrt q.den : Rat))
    else none

/-- Modelled from the spec (§4.1, §4.3): solve v∙n1 = c and v∙n2 = c for the
bisector velocity v of a wavefront vertex with incident edge normals n1, n2;
none when the 2×2 system is singular (parallel edges). -/
def solve2 (n1 n2 : Pt) (c : Rat) : Option Pt :=
  if rsub (rmul n1.1 n2.2) (rmul n1.2 n2.1) = 0 then none
  else some (rdiv (rmul c (rsub n2.2 n1.2)) (rsub (rmul n1.1 n2.2) (rmul n1.2 n2.1)),
    rdiv (rmul c (rsub n1.1 n2.1)) (rsub (rmul n1.1 n2.2) (rmul n1.2 n2.1)))

/-- Modelled from the spec (§4.1): unit inward normal of the directed edge
from a to b (rotate the direction left and normalise); none when the edge is
degenerate or its length is irrational (outside the exact rational model). -/
def edgeNormal (a b : Pt) : Option Pt :=
  if vsub b a = ((0 : Rat), (0 : Rat)) then none
  else
    match ratSqrt (radd (rmul (vsub b a).1 (vsub b a).1) (rmul (vsub b a).2 (vsub b a).2)) with
    | none => none
    | some r => some (rdiv (rsub 0 (vsub b a).2) r, rdiv (vsub b a).1 r)

/-- The spec's SkeletonVertex: a permanent output point together with the
propagation time at which it was recorded (time 0 for contour vertices). -/
structure SVert where
  point : Pt
  time : Rat
  deriving DecidableEq, Repr, Inhabited

/-- The spec's SkeletonHalfEdge: directed connection to the vertex `tgt`,
paired with the opposite half-edge at index `opp`; `is_border` flags
half-edges corresponding to wavefront boundary rather than bisector
structure (spec §3). -/
structure Halfedge where
  tgt : Nat
  opp : Nat
  is_border : Bool
  deriving DecidableEq, Repr, Inhabited

/-- Default vertex used by total lookups (the C++ iterates without bounds
checks; lookups in the model are total via defaults). -/
def dSV : SVert := ⟨((0 : Rat), (0 : Rat)), 0⟩

/-- Default half-edge used by total lookups. -/
def dHE : Halfedge := ⟨0, 0, true⟩

/-- The completed straight skeleton: vertices, paired half-edges, and (for
exterior skeletons) the maximum propagation bound it was built with
(spec §9: exterior mode carries the max-distance bound). -/
structure Skeleton where
  verts : List SVert
  halfedges : List Halfedge
  maxBound : Option Rat
  deriving DecidableEq, Repr, Inhabited

/-- Lay out a list of (source, target, is_border) arcs as consecutively
paired half-edges starting at index b: pair k occupies indices b+2k and
b+2k+1, each naming the other as its opposite. -/
def pairsHE : Nat → List (Nat × Nat × Bool) → List Halfedge
  | _, [] => []
  | b, (a, c, br) :: rest => ⟨c, b + 1, br⟩ :: ⟨a, b, br⟩ :: pairsHE (b + 2) rest

/-- Assemble a skeleton from its vertices and its (source, target, border)
edge list. -/
def mkSkeleton (verts : List SVert) (prs : List (Nat × Nat × Bool)) (mb : Option Rat) :
    Skeleton :=
  ⟨verts, pairsHE 0 prs, mb⟩

/-- The (source, target, border) triples of the original polygon boundary of
an n-gon: contour edge i runs from vertex i to vertex (i+1) % n. -/
def borderPairs (n : Nat) : List (Nat × Nat × Bool) :=
  (List.range n).map (fun i => (i, (i + 1) % n, true))

/-- The largest recorded propagation time of a skeleton (0 when empty). -/
def maxTime (s : Skeleton) : Rat :=
  (s.verts.map (fun v => v.time)).foldr max 0

/-- The spec's WavefrontVertex: position extrapolated to time 0 plus a
velocity (position-as-function-of-time), the index of its birth
SkeletonVertex, and the inward normals of its two incident wavefront edges. -/
structure WfV where
  pos0 : Pt
  vel : Pt
  birthSv : Nat
  leftN : Pt
  rightN : Pt
  deriving DecidableEq, Repr, Inhabited

/-- Default wavefront vertex for total lookups. -/
def dWf : WfV := ⟨((0 : Rat), (0 : Rat)), ((0 : Rat), (0 : Rat)), 0,
  ((0 : Rat), (0 : Rat)), ((0 : Rat), (0 : Rat))⟩

/-- Position of a wavefront vertex at time t. -/
def posAt (t : Rat) (w : WfV) : Pt := vadd w.pos0 (smul t w.vel)

/-- Modelled from the spec (§4.2/§4.3): the predicted time at which two
adjacent wavefront vertices meet (their shared wavefront edge collapses);
none when their motions never coincide. -/
def solveMeet (a b : WfV) : Option Rat :=
  if (vsub a.vel b.vel).1 = 0 then
    if (vsub b.pos0 a.pos0).1 = 0 then
      if (vsub a.vel b.vel).2 = 0 then none
      else some (rdiv (vsub b.pos0 a.pos0).2 (vsub a.vel b.vel).2)
    else none
  else
    if rmul (rdiv (vsub b.pos0 a.pos0).1 (vsub a.vel b.vel).1) (vsub a.vel b.vel).2 =
        (vsub b.pos0 a.pos0).2 then
      some (rdiv (vsub b.pos0 a.pos0).1 (vsub a.vel b.vel).1)
    else none

/-- Modelled from the spec (§4.3): build the initial wavefront of a polygon;
vertex i carries the polygon point, its bisector velocity solved from the
two incident edge normals scaled by sgn (+1 interior, -1 exterior), and
birth SkeletonVertex index i. -/
def mkWf (sgn : Rat) (poly : List Pt) (i : Nat) : Option WfV :=
  match edgeNormal (poly.getD ((i + poly.length - 1) % poly.length) ((0 : Rat), (0 : Rat)))
        (poly.getD i ((0 : Rat), (0 : Rat))),
      edgeNormal (poly.getD i ((0 : Rat), (0 : Rat)))
        (poly.getD ((i + 1) % poly.length) ((0 : Rat), (0 : Rat))) with
  | some nl, some nr =>
    match solve2 nl nr sgn with
    | some v => some ⟨poly.getD i ((0 : Rat), (0 : Rat)), v, i, nl, nr⟩
    | none => none
  | _, _ => none

/-- Run an index-wise optional constructor for indices 0..n-1, collecting the
results in order; none as soon as one index fails. -/
def initAux (f : Nat → Option WfV) : Nat → Option (List WfV)
  | 0 => some []
  | n + 1 =>
    match initAux f n, f n with
    | some l, some w => some (l ++ [w])
    | _, _ => none

/-- Modelled from the spec (§4.3): the initial wavefront of a polygon, one
WavefrontVertex per polygon vertex, in polygon order. -/
def initWavefront (sgn : Rat) (poly : List Pt) : Option (List WfV) :=
  initAux (mkWf sgn poly) poly.length

/-- The spec's error kinds (§7). -/
inductive SkError where
  | InvalidInput
  | DegenerateConstruction
  | DistanceOutOfRange
  deriving DecidableEq, Repr

deriving instance DecidableEq for Except

/-- The Skeleton Builder's simulation state (spec §4.4): the active
wavefront in cyclic order, the skeleton vertices and bisector arcs recorded
so far, and the current (monotone) simulation time. -/
structure BuildSt where
  active : List WfV
  svs : List SVert
  arcs : List (Nat × Nat)
  time : Rat
  deriving Repr

/-- Modelled from the spec (§4.2/§4.4): find the next event — the pending
edge collapse with minimal predicted time not before the current time, ties
broken by lowest index (the deterministic insertion-order tie-break). -/
def findEvent (st : BuildSt) : Option (Nat × Rat) :=
  ((List.range st.active.length).filterMap (fun i =>
    match solveMeet (st.active.getD i dWf)
        (st.active.getD ((i + 1) % st.active.length) dWf) with
    | some t => if st.time ≤ t then some (i, t) else none
    | none => none)).foldl (fun best c =>
    match best with
    | none => some c
    | some b => if c.2 < b.2 then some c else some b) none

/-- The point at which the event it = (index, time) occurs: the position at
the event time of the wavefront vertex the event names. -/
def eventQ (st : BuildSt) (it : Nat × Rat) : Pt :=
  posAt it.2 ((st.active.rotate it.1).getD 0 dWf)

/-- Whether a wavefront vertex reaches the event point at the event time. -/
def atQ (st : BuildSt) (it : Nat × Rat) : WfV → Bool :=
  fun w => decide (posAt it.2 w = eventQ st it)

/-- The active wavefront rotated so that the (cyclically contiguous) group
of vertices reaching the event point forms a prefix. -/
def eventRot (st : BuildSt) (it : Nat × Rat) : List WfV :=
  (st.active.rotate it.1).rotate
    ((st.active.length -
      ((st.active.rotate it.1).reverse.takeWhile (atQ st it)).length) % st.active.length)

/-- The wavefront vertices consumed by the event (those reaching the event
point at the event time, as a contiguous group). -/
def eventRun (st : BuildSt) (it : Nat × Rat) : List WfV :=
  (eventRot st it).takeWhile (atQ st it)

/-- The wavefront vertices surviving the event, in cyclic order. -/
def eventSurv (st : BuildSt) (it : Nat × Rat) : List WfV :=
  (eventRot st it).dropWhile (atQ st it)

/-- Modelled from the spec (§4.3/§4.4): apply one edge-collapse event.  The
wavefront is rotated so that the vertices reaching the event point form a
prefix (simultaneous collapses at the same point are merged into one
multi-vertex event, as the stale-event rule demands); those vertices are
deactivated and arc'd to the one new SkeletonVertex; if any wavefront
remains, one replacement WavefrontVertex is created there with a bisector
velocity solved from the two surviving incident edges.  Either the updated
state (inl) or the finished vertex/arc lists (inr) is returned; locally
invalid geometry is a DegenerateConstruction failure for the whole build. -/
def stepOnce (st : BuildSt) : Except SkError (BuildSt ⊕ (List SVert × List (Nat × Nat))) :=
  match findEvent st with
  | none => .error .DegenerateConstruction
  | some it =>
    if eventRun st it = [] then .error .DegenerateConstruction
    else
      match eventSurv st it with
      | [] => .ok (.inr (st.svs ++ [⟨eventQ st it, it.2⟩],
          st.arcs ++ (eventRun st it).map (fun w => (w.birthSv, st.svs.length))))
      | s1 :: rest =>
        if rest = [] then .error .DegenerateConstruction
        else
          match solve2 (rest.getLastD s1).rightN s1.leftN 1 with
          | none => .error .DegenerateConstruction
          | some v =>
            .ok (.inl ⟨⟨vsub (eventQ st it) (smul it.2 v), v, st.svs.length,
                (rest.getLastD s1).rightN, s1.leftN⟩ :: s1 :: rest,
              st.svs ++ [⟨eventQ st it, it.2⟩],
              st.arcs ++ (eventRun st it).map (fun w => (w.birthSv, st.svs.length)), it.2⟩)

/-- Modelled from the spec (§4.4): drain the events until the wavefront is
fully consumed; fuel bounds the iteration count (each event deactivates at
least two vertices and creates at most one, so the initial vertex count
suffices). -/
def go : Nat → BuildSt → Except SkError (List SVert × List (Nat × Nat))
  | 0, _ => .error .DegenerateConstruction
  | fuel + 1, st =>
    match stepOnce st with
    | .error e => .error e
    | .ok (.inr out) => .ok out
    | .ok (.inl st2) => go fuel st2

/-- Modelled from the spec: the interior Skeleton Builder behind CGAL's
create_interior_straight_skeleton_2 (not part of this repository; the spec's
build_interior_skeleton, §4.3–§4.4, §6).  Inputs with fewer than 3 points
are InvalidInput (§7); the wavefront simulation is run to completion and the
contour vertices, event vertices and bisector arcs are assembled into the
skeleton, with the original boundary as border half-edges. -/
def create_interior_straight_skeleton_2 (poly : List Pt) : Except SkError Skeleton :=
  if poly.length < 3 then .error .InvalidInput
  else
    match initWavefront 1 poly with
    | none => .error .DegenerateConstruction
    | some wfs =>
      match go poly.length ⟨wfs, poly.map (fun p => ⟨p, 0⟩), [], 0⟩ with
      | .error e => .error e
      | .ok (svs, arcs) =>
        .ok (mkSkeleton svs
          (borderPairs poly.length ++ arcs.map (fun a => (a.1, a.2, false))) none)

/-- Modelled from the spec (§4.4): whether some wavefront edge would
collapse within the propagation window [0, m] (an event the frozen exterior
model does not simulate). -/
def hasEarlyCollapse (m : Rat) (wfs : List WfV) : Bool :=
  let n := wfs.length
  (List.range n).any (fun i =>
    match solveMeet (wfs.getD i dWf) (wfs.getD ((i + 1) % n) dWf) with
    | some t => decide (0 ≤ t ∧ t ≤ m)
    | none => false)

/-- Modelled from the spec: the exterior Skeleton Builder behind CGAL's
create_exterior_straight_skeleton_2 (not part of this repository; the spec's
build_exterior_skeleton(polygon, max_distance), §4.4, §6, §9).  The outward
wavefront is propagated to the caller-supplied bound m, at which point the
remaining active vertices are frozen and connected to synthetic boundary
vertices; configurations with events inside the window are reported as
construction failures rather than partially simulated. -/
def create_exterior_straight_skeleton_2 (m : Rat) (poly : List Pt) :
    Except SkError Skeleton :=
  if poly.length < 3 then .error .InvalidInput
  else
    match initWavefront (-1) poly with
    | none => .error .DegenerateConstruction
    | some wfs =>
      if hasEarlyCollapse m wfs then .error .DegenerateConstruction
      else
        .ok (mkSkeleton
          (poly.map (fun p => ⟨p, 0⟩) ++ wfs.map (fun w => ⟨posAt m w, m⟩))
          (borderPairs poly.length
            ++ (List.range poly.length).map (fun i =>
                (poly.length + i, poly.length + (i + 1) % poly.length, true))
            ++ (List.range poly.length).map (fun i => (i, poly.length + i, false)))
          (some m))

/-- Source index of a half-edge: the vertex of its opposite half-edge
(src/main.cpp line 131: ei->opposite()->vertex()). -/
def srcIdx (s : Skeleton) (h : Halfedge) : Nat := (s.halfedges.getD h.opp dHE).tgt

/-- Modelled from the spec (§4.5): the Offset Extractor behind CGAL's
create_offset_polygons_2 (not part of this repository).  An offset at
distance d crosses exactly the half-edges whose endpoint times straddle d
(source time < d ≤ target time); each contributes one point by linear
interpolation in space-time along the half-edge.  The connection of these
points into closed polygons along border adjacency is abstracted: the model
returns the straddle points as a single polygon when any exist (every claim
settled here depends only on which half-edges straddle, not on the cyclic
order of the connection). -/
def create_offset_polygons_2 (d : Rat) (s : Skeleton) : List (List Pt) :=
  let pts := s.halfedges.filterMap (fun h =>
    let a := s.verts.getD (srcIdx s h) dSV
    let b := s.verts.getD h.tgt dSV
    if a.time < d ∧ d ≤ b.time then
      some (vadd a.point (smul (rdiv (rsub d a.time) (rsub b.time a.time))
        (vsub b.point a.point)))
    else none)
  if pts = [] then [] else [pts]

/-- The spec's side parameter of offset_at (§4.5, §6). -/
inductive SpecSide where
  | Interior
  | Exterior
  deriving DecidableEq, Repr

/-- Modelled from the spec, following its words (§4.5, §7): the spec-level
offset_at contract, stated separately from the code-derived extractor so the
two can be compared.  Exterior requests beyond the configured maximum bound
fail with DistanceOutOfRange; every other request returns the extracted
polygon list (possibly empty, a valid outcome). -/
def offsetAtSpec (s : Skeleton) (d : Rat) (side : SpecSide) :
    Except SkError (List (List Pt)) :=
  match side, s.maxBound with
  | .Exterior, some m =>
    if m < d then .error .DistanceOutOfRange else .ok (create_offset_polygons_2 d s)
  | _, _ => .ok (create_offset_polygons_2 d s)

/-- The C++ enum value OffsetType::INTERIOR (src/main.cpp line 28). -/
def INTERIOR : Int := 0

/-- The C++ enum value OffsetType::EXTERIOR (src/main.cpp line 29). -/
def EXTERIOR : Int := 1

/-- The wrapper class state (src/main.cpp lines 33–37): the original polygon
and the two lazily computed skeleton pointers (none models the null shared
pointer, both before computation and after a failed construction, exactly as
in the C++). -/
structure SkeletonManager where
  original_polygon : List Pt
  interior_skeleton : Option Skeleton
  exterior_skeleton : Option Skeleton
  deriving DecidableEq, Repr

/-- compute_skeletons (src/main.cpp lines 40–56): fill each skeleton pointer
that is still null; the exterior build always passes the fixed literal 5 as
the maximum distance. -/
def compute_skeletons (st : SkeletonManager) : SkeletonManager :=
  { st with
    interior_skeleton :=
      match st.interior_skeleton with
      | some s => some s
      | none => (create_interior_straight_skeleton_2 st.original_polygon).toOption
    exterior_skeleton :=
      match st.exterior_skeleton with
      | some s => some s
      | none => (create_exterior_straight_skeleton_2 5 st.original_polygon).toOption }

/-- offset_polygon (src/main.cpp lines 63–101): ensure the skeletons are
computed, pick interior when offset_type equals INTERIOR (0) and exterior
otherwise, run the offset extraction, and return the polygon list together
with the updated object state.  There is no error path: the C++ returns a
JavaScript array unconditionally.  (When the selected pointer is null the
C++ dereferences it — undefined behavior; the model returns the empty list
there, and no claim depends on that branch.) -/
def offset_polygon (st : SkeletonManager) (offset_distance : Rat) (offset_type : Int) :
    List (List Pt) × SkeletonManager :=
  (match (if offset_type = 0 then (compute_skeletons st).interior_skeleton
      else (compute_skeletons st).exterior_skeleton) with
   | some s => create_offset_polygons_2 offset_distance s
   | none => [], compute_skeletons st)

/-- The vertices array built by get_skeleton_info (src/main.cpp lines
115–123): every SkeletonVertex position, in iteration order. -/
def infoVertices (s : Skeleton) : List Pt :=
  s.verts.foldl (fun acc v => acc ++ [v.point]) []

/-- The edges array built by get_skeleton_info (src/main.cpp lines 126–147):
for every half-edge that is not a border half-edge, the pair of the opposite
half-edge's vertex position (start) and the half-edge's own vertex position
(end); border half-edges are skipped by the continue. -/
def infoEdges (s : Skeleton) : List (Pt × Pt) :=
  s.halfedges.foldl (fun acc h =>
    if h.is_border then acc
    else acc ++ [((s.verts.getD (srcIdx s h) dSV).point, (s.verts.getD h.tgt dSV).point)])
    []

/-- get_skeleton_info (src/main.cpp lines 104–150): ensure the skeletons are
computed, pick by skeleton_type (INTERIOR = 0, anything else exterior), and
return the vertices and edges arrays together with the updated state.  (The
null-pointer branch is undefined behavior in the C++; the model returns
empty arrays there.) -/
def get_skeleton_info (st : SkeletonManager) (skeleton_type : Int) :
    (List Pt × List (Pt × Pt)) × SkeletonManager :=
  (match (if skeleton_type = 0 then (compute_skeletons st).interior_skeleton
      else (compute_skeletons st).exterior_skeleton) with
   | some s => (infoVertices s, infoEdges s)
   | none => ([], []), compute_skeletons st)

/-- create_from_js_array (src/main.cpp lines 153–165): build the polygon
from every incoming point, unconditionally, and return a fresh manager; no
validation of any kind is performed.  (The x/y marshalling from JavaScript
numbers is modelled as the identity on rational coordinates.) -/
def create_from_js_array (points_array : List Pt) : SkeletonManager :=
  ⟨points_array, none, none⟩

/-- The square of side 2 centered at the origin, counter-clockwise (the
spec's §8 test polygon). -/
def squarePoly : List Pt :=
  [((-1 : Rat), (-1 : Rat)), ((1 : Rat), (-1 : Rat)),
   ((1 : Rat), (1 : Rat)), ((-1 : Rat), (1 : Rat))]

/-- The default (source, target, border) triple used by total lookups. -/
def dT : Nat × Nat × Bool := (0, 0, true)

/-- Loop invariant of the Skeleton Builder: arcs reference recorded skeleton
vertices; every recorded skeleton vertex is either already an arc endpoint
or the birth vertex of a still active wavefront vertex; active birth indices
are in range; time is non-negative and so are all recorded times. -/
def BuildInv (st : BuildSt) : Prop :=
  (∀ a ∈ st.arcs, a.1 < st.svs.length ∧ a.2 < st.svs.length) ∧
  (∀ k, k < st.svs.length →
    (∃ a ∈ st.arcs, a.1 = k ∨ a.2 = k) ∨ (∃ w ∈ st.active, w.birthSv = k)) ∧
  (∀ w ∈ st.active, w.birthSv < st.svs.length) ∧
  0 ≤ st.time ∧ (∀ v ∈ st.svs, 0 ≤ v.time)

/-- What holds of a finished build: the arcs reference recorded vertices,
every recorded vertex is an arc endpoint, and all times are non-negative. -/
def Good (out : List SVert × List (Nat × Nat)) : Prop :=
  (∀ a ∈ out.2, a.1 < out.1.length ∧ a.2 < out.1.length) ∧
  (∀ k, k < out.1.length → ∃ a ∈ out.2, a.1 = k ∨ a.2 = k) ∧
  (∀ v ∈ out.1, 0 ≤ v.time)

/-- The interior straight skeleton the modelled builder computes for the
square of side 2: the four contour vertices at time 0, one interior
SkeletonVertex at the origin at time 1, the border half-edges of the square
boundary and the four bisector arcs into the center. -/
def sqIntSk : Skeleton :=
  mkSkeleton
    [⟨((-1 : Rat), (-1 : Rat)), 0⟩, ⟨((1 : Rat), (-1 : Rat)), 0⟩,
     ⟨((1 : Rat), (1 : Rat)), 0⟩, ⟨((-1 : Rat), (1 : Rat)), 0⟩,
     ⟨((0 : Rat), (0 : Rat)), 1⟩]
    (borderPairs 4 ++ [(0, 4, false), (1, 4, false), (2, 4, false), (3, 4, false)])
    none

/-- The exterior straight skeleton the modelled builder computes for the
square of side 2 with maximum distance 5: contour vertices at time 0, the
four frozen synthetic boundary vertices at time 5, border half-edges for
both boundaries and one bisector arc per corner. -/
def sqExtSk : Skeleton :=
  mkSkeleton
    [⟨((-1 : Rat), (-1 : Rat)), 0⟩, ⟨((1 : Rat), (-1 : Rat)), 0⟩,
     ⟨((1 : Rat), (1 : Rat)), 0⟩, ⟨((-1 : Rat), (1 : Rat)), 0⟩,
     ⟨((-6 : Rat), (-6 : Rat)), 5⟩, ⟨((6 : Rat), (-6 : Rat)), 5⟩,
     ⟨((6 : Rat), (6 : Rat)), 5⟩, ⟨((-6 : Rat), (6 : Rat)), 5⟩]
    (borderPairs 4
      ++ [(4, 5, true), (5, 6, true), (6, 7, true), (7, 4, true)]
      ++ [(0, 4, false), (1, 5, false), (2, 6, false), (3, 7, false)])
    (some 5)

/-! ### Basic list lemmas about the query loops -/

theorem foldl_emit_eq_flatMap (l : List Halfedge) (f : Halfedge → List (Pt × Pt)) :
    ∀ acc, l.foldl (fun a x => a ++ f x) acc = acc ++ l.flatMap f := by
  induction l with
  | nil => intro acc; simp
  | cons x xs ih => intro acc; simp [List.foldl_cons, ih, List.flatMap_cons]

theorem foldl_point_eq_map (l : List SVert) :
    ∀ acc, l.foldl (fun a v => a ++ [v.point]) acc = acc ++ l.map (fun v => v.point) := by
  induction l with
  | nil => intro acc; simp
  | cons x xs ih => intro acc; simp [List.foldl_cons, ih]

theorem infoVertices_eq_map (s : Skeleton) :
    infoVertices s = s.verts.map (fun v => v.point) := by
  unfold infoVertices
  simpa using foldl_point_eq_map s.verts []

theorem infoEdges_eq_flatMap (s : Skeleton) :
    infoEdges s = s.halfedges.flatMap (fun h =>
      if h.is_border then []
      else [((s.verts.getD (srcIdx s h) dSV).point, (s.verts.getD h.tgt dSV).point)]) := by
  unfold infoEdges
  have hfun : (fun (acc : List (Pt × Pt)) (h : Halfedge) =>
      if h.is_border then acc
      else acc ++ [((s.verts.getD (srcIdx s h) dSV).point, (s.verts.getD h.tgt dSV).point)]) =
      fun acc h => acc ++ (if h.is_border then []
      else [((s.verts.getD (srcIdx s h) dSV).point, (s.verts.getD h.tgt dSV).point)]) := by
    funext acc h
    by_cases hb : h.is_border <;> simp [hb]
  rw [hfun]
  simpa using foldl_emit_eq_flatMap s.halfedges _ []

theorem flatMap_if_eq_filter_map (l : List Halfedge) (f : Halfedge → Pt × Pt) :
    l.flatMap (fun h => if h.is_border then [] else [f h]) =
      (l.filter (fun h => !h.is_border)).map f := by
  induction l with
  | nil => simp
  | cons x xs ih =>
    by_cases hb : x.is_border <;> simp [List.flatMap_cons, hb, ih]

theorem mem_infoEdges (s : Skeleton) (e : Pt × Pt) :
    e ∈ infoEdges s ↔ ∃ h, h ∈ s.halfedges ∧ h.is_border = false ∧
      e = ((s.verts.getD (srcIdx s h) dSV).point, (s.verts.getD h.tgt dSV).point) := by
  rw [infoEdges_eq_flatMap, List.mem_flatMap]
  constructor
  · rintro ⟨h, hmem, he⟩
    by_cases hb : h.is_border = true
    · rw [if_pos hb] at he
      exact absurd he (List.not_mem_nil e)
    · rw [if_neg hb, List.mem_singleton] at he
      exact ⟨h, hmem, by simpa using hb, he⟩
  · rintro ⟨h, hmem, hb, he⟩
    refine ⟨h, hmem, ?_⟩
    rw [if_neg (by simp [hb]), List.mem_singleton]
    exact he

/-! ### Lemmas about the paired half-edge layout -/

theorem pairsHE_length (ps : List (Nat × Nat × Bool)) :
    ∀ b, (pairsHE b ps).length = 2 * ps.length := by
  induction ps with
  | nil => intro b; simp [pairsHE]
  | cons p rest ih =>
    intro b
    obtain ⟨a, c, br⟩ := p
    simp [pairsHE, ih]
    omega

theorem mem_pairsHE (ps : List (Nat × Nat × Bool)) (h : Halfedge) :
    ∀ b, h ∈ pairsHE b ps ↔ ∃ k, k < ps.length ∧
      (h = ⟨(ps.getD k dT).2.1, b + 2 * k + 1, (ps.getD k dT).2.2⟩ ∨
       h = ⟨(ps.getD k dT).1, b + 2 * k, (ps.getD k dT).2.2⟩) := by
  induction ps with
  | nil => intro b; simp [pairsHE]
  | cons p rest ih =>
    intro b
    obtain ⟨a, c, br⟩ := p
    simp only [pairsHE, List.mem_cons, ih (b + 2)]
    constructor
    · rintro (h1 | h2 | ⟨k, hk, hor⟩)
      · exact ⟨0, by simp only [List.length_cons]; omega, Or.inl (by simpa using h1)⟩
      · exact ⟨0, by simp only [List.length_cons]; omega, Or.inr (by simpa using h2)⟩
      · refine ⟨k + 1, by simp only [List.length_cons]; omega, ?_⟩
        have harith1 : b + 2 + 2 * k + 1 = b + 2 * (k + 1) + 1 := by omega
        have harith2 : b + 2 + 2 * k = b + 2 * (k + 1) := by omega
        simpa [List.getD_cons_succ, harith1, harith2] using hor
    · rintro ⟨k, hk, hor⟩
      simp only [List.length_cons] at hk
      match k with
      | 0 =>
        simp only [List.getD_cons_zero] at hor
        rcases hor with h1 | h2
        · exact Or.inl (by simpa using h1)
        · exact Or.inr (Or.inl (by simpa using h2))
      | k + 1 =>
        refine Or.inr (Or.inr ⟨k, by omega, ?_⟩)
        have harith1 : b + 2 + 2 * k + 1 = b + 2 * (k + 1) + 1 := by omega
        have harith2 : b + 2 + 2 * k = b + 2 * (k + 1) := by omega
        simpa [List.getD_cons_succ, harith1, harith2] using hor

theorem pairsHE_getD (ps : List (Nat × Nat × Bool)) :
    ∀ b j, j < 2 * ps.length →
      (pairsHE b ps).getD j dHE =
        (if j % 2 = 0
          then ⟨(ps.getD (j / 2) dT).2.1, b + j + 1, (ps.getD (j / 2) dT).2.2⟩
          else ⟨(ps.getD (j / 2) dT).1, b + j - 1, (ps.getD (j / 2) dT).2.2⟩ : Halfedge) := by
  induction ps with
  | nil => intro b j hj; simp at hj
  | cons p rest ih =>
    intro b j hj
    obtain ⟨a, c, br⟩ := p
    match j with
    | 0 => simp [pairsHE]
    | 1 => simp [pairsHE]
    | j + 2 =>
      have hlt : j < 2 * rest.length := by
        simp only [List.length_cons] at hj; omega
      have hrec := ih (b + 2) j hlt
      have hmod : (j + 2) % 2 = j % 2 := by omega
      have hdiv : (j + 2) / 2 = j / 2 + 1 := by omega
      simp only [pairsHE, List.getD_cons_succ, hrec, hmod, hdiv]
      by_cases hpar : j % 2 = 0
      · rw [if_pos hpar, if_pos hpar]
        have harith : b + 2 + j + 1 = b + (j + 2) + 1 := by omega
        rw [harith]
      · rw [if_neg hpar, if_neg hpar]
        have harith : b + 2 + j - 1 = b + (j + 2) - 1 := by omega
        rw [harith]

theorem getD_pairsHE_odd (ps : List (Nat × Nat × Bool)) (k : Nat) (hk : k < ps.length) :
    (pairsHE 0 ps).getD (2 * k + 1) dHE =
      ⟨(ps.getD k dT).1, 2 * k, (ps.getD k dT).2.2⟩ := by
  have h2 := pairsHE_getD ps 0 (2 * k + 1) (by omega)
  rw [h2, if_neg (by omega)]
  have hdiv : (2 * k + 1) / 2 = k := by omega
  have hopp : 0 + (2 * k + 1) - 1 = 2 * k := by omega
  rw [hdiv, hopp]

theorem getD_pairsHE_even (ps : List (Nat × Nat × Bool)) (k : Nat) (hk : k < ps.length) :
    (pairsHE 0 ps).getD (2 * k) dHE =
      ⟨(ps.getD k dT).2.1, 2 * k + 1, (ps.getD k dT).2.2⟩ := by
  have h2 := pairsHE_getD ps 0 (2 * k) (by omega)
  rw [h2, if_pos (by omega)]
  have hdiv : 2 * k / 2 = k := by omega
  have hopp : 0 + 2 * k + 1 = 2 * k + 1 := by omega
  rw [hdiv, hopp]

theorem endpoints_mkSkeleton (verts : List SVert) (ps : List (Nat × Nat × Bool))
    (mb : Option Rat) (c : Pt) :
    (∃ e ∈ infoEdges (mkSkeleton verts ps mb), c = e.1 ∨ c = e.2) ↔
    ∃ pr ∈ ps, pr.2.2 = false ∧
      (c = (verts.getD pr.1 dSV).point ∨ c = (verts.getD pr.2.1 dSV).point) := by
  constructor
  · rintro ⟨e, he, hc⟩
    rw [mem_infoEdges] at he
    obtain ⟨h, hmem, hb, hee⟩ := he
    have hmem2 := (mem_pairsHE ps h 0).mp hmem
    obtain ⟨k, hk, hor⟩ := hmem2
    have hprmem : ps.getD k dT ∈ ps := by
      rw [List.getD_eq_getElem ps dT hk]
      exact List.getElem_mem hk
    rcases hor with hh | hh
    · have hopp : h.opp = 2 * k + 1 := by
        rw [hh]
        show 0 + 2 * k + 1 = 2 * k + 1
        omega
      have htgt : h.tgt = (ps.getD k dT).2.1 := by rw [hh]
      have hbr : (ps.getD k dT).2.2 = false := by rw [hh] at hb; exact hb
      have hsrc : srcIdx (mkSkeleton verts ps mb) h = (ps.getD k dT).1 := by
        unfold srcIdx
        show ((pairsHE 0 ps).getD h.opp dHE).tgt = _
        rw [hopp, getD_pairsHE_odd ps k hk]
      refine ⟨ps.getD k dT, hprmem, hbr, ?_⟩
      rw [hee] at hc
      simp only [hsrc, htgt] at hc
      exact hc
    · have hopp : h.opp = 2 * k := by
        rw [hh]
        show 0 + 2 * k = 2 * k
        omega
      have htgt : h.tgt = (ps.getD k dT).1 := by rw [hh]
      have hbr : (ps.getD k dT).2.2 = false := by rw [hh] at hb; exact hb
      have hsrc : srcIdx (mkSkeleton verts ps mb) h = (ps.getD k dT).2.1 := by
        unfold srcIdx
        show ((pairsHE 0 ps).getD h.opp dHE).tgt = _
        rw [hopp, getD_pairsHE_even ps k hk]
      refine ⟨ps.getD k dT, hprmem, hbr, ?_⟩
      rw [hee] at hc
      simp only [hsrc, htgt] at hc
      exact hc.symm.imp (fun hx => hx) (fun hx => hx)
  · rintro ⟨pr, hpr, hbr, hc⟩
    obtain ⟨k, hk, hgetk⟩ := List.mem_iff_getElem.mp hpr
    have hgd : ps.getD k dT = pr := by rw [List.getD_eq_getElem ps dT hk, hgetk]
    have hmem : (⟨(ps.getD k dT).2.1, 0 + 2 * k + 1, (ps.getD k dT).2.2⟩ : Halfedge) ∈
        pairsHE 0 ps := (mem_pairsHE ps _ 0).mpr ⟨k, hk, Or.inl rfl⟩
    have hsrc : srcIdx (mkSkeleton verts ps mb)
        ⟨(ps.getD k dT).2.1, 0 + 2 * k + 1, (ps.getD k dT).2.2⟩ = (ps.getD k dT).1 := by
      unfold srcIdx
      show ((pairsHE 0 ps).getD (0 + 2 * k + 1) dHE).tgt = _
      have h01 : 0 + 2 * k + 1 = 2 * k + 1 := by omega
      rw [h01, getD_pairsHE_odd ps k hk]
    refine ⟨((verts.getD pr.1 dSV).point, (verts.getD pr.2.1 dSV).point), ?_, ?_⟩
    · rw [mem_infoEdges]
      refine ⟨⟨(ps.getD k dT).2.1, 0 + 2 * k + 1, (ps.getD k dT).2.2⟩, hmem, ?_, ?_⟩
      · rw [hgd, hbr]
      · rw [hsrc]
        show _ = ((verts.getD (ps.getD k dT).1 dSV).point,
          (verts.getD (ps.getD k dT).2.1 dSV).point)
        rw [hgd]
    · exact hc

/-! ### Lemmas about recorded times and maxTime -/

theorem foldr_max_nonneg (l : List Rat) : 0 ≤ l.foldr max 0 := by
  induction l with
  | nil => simp
  | cons x xs ih => exact le_trans ih (le_max_right x _)

theorem le_foldr_max (l : List Rat) (x : Rat) (hx : x ∈ l) : x ≤ l.foldr max 0 := by
  induction l with
  | nil => simp at hx
  | cons y ys ih =>
    rcases List.mem_cons.mp hx with h | h
    · rw [h]; exact le_max_left y _
    · exact le_trans (ih h) (le_max_right y _)

theorem maxTime_nonneg (s : Skeleton) : 0 ≤ maxTime s := foldr_max_nonneg _

theorem time_le_maxTime (s : Skeleton) (v : SVert) (hv : v ∈ s.verts) :
    v.time ≤ maxTime s :=
  le_foldr_max _ _ (List.mem_map_of_mem (fun v => v.time) hv)

theorem getD_time_nonneg (l : List SVert) (h0 : ∀ v ∈ l, 0 ≤ v.time) (i : Nat) :
    0 ≤ (l.getD i dSV).time := by
  by_cases hi : i < l.length
  · rw [List.getD_eq_getElem l dSV hi]
    exact h0 _ (List.getElem_mem hi)
  · rw [List.getD_eq_default l dSV (by omega)]
    exact le_refl 0

theorem getD_time_le_maxTime (s : Skeleton) (i : Nat) :
    (s.verts.getD i dSV).time ≤ maxTime s := by
  by_cases hi : i < s.verts.length
  · rw [List.getD_eq_getElem _ dSV hi]
    exact time_le_maxTime s _ (List.getElem_mem hi)
  · rw [List.getD_eq_default _ dSV (by omega)]
    exact maxTime_nonneg s

/-! ### The offset extractor on distances outside the recorded time range -/

theorem create_offset_polygons_2_eq_nil (d : Rat) (s : Skeleton)
    (h : ∀ h2 : Halfedge, h2 ∈ s.halfedges →
      ¬((s.verts.getD (srcIdx s h2) dSV).time < d ∧
        d ≤ (s.verts.getD h2.tgt dSV).time)) :
    create_offset_polygons_2 d s = [] := by
  unfold create_offset_polygons_2
  have hnil : s.halfedges.filterMap (fun h2 =>
      let a := s.verts.getD (srcIdx s h2) dSV
      let b := s.verts.getD h2.tgt dSV
      if a.time < d ∧ d ≤ b.time then
        some (vadd a.point (smul (rdiv (rsub d a.time) (rsub b.time a.time))
          (vsub b.point a.point)))
      else none) = [] := by
    rw [List.filterMap_eq_nil_iff]
    intro h2 hmem
    exact if_neg (h h2 hmem)
  rw [hnil]
  simp

theorem offset_zero_eq_nil (s : Skeleton) (h0 : ∀ v ∈ s.verts, 0 ≤ v.time) :
    create_offset_polygons_2 0 s = [] := by
  apply create_offset_polygons_2_eq_nil
  intro h2 _
  rintro ⟨hlt, _⟩
  exact absurd (getD_time_nonneg s.verts h0 (srcIdx s h2)) (by
    intro hge
    exact absurd (lt_of_le_of_lt hge hlt) (lt_irrefl 0))

theorem offset_beyond_eq_nil (s : Skeleton) (d : Rat) (hd : maxTime s < d) :
    create_offset_polygons_2 d s = [] := by
  apply create_offset_polygons_2_eq_nil
  intro h2 _
  rintro ⟨_, hle⟩
  exact absurd (le_trans hle (getD_time_le_maxTime s h2.tgt)) (not_le_of_lt hd)

/-! ### Lemmas about wavefront initialization -/

theorem initAux_length (f : Nat → Option WfV) :
    ∀ n l, initAux f n = some l → l.length = n := by
  intro n
  induction n with
  | zero =>
    intro l h
    unfold initAux at h
    injection h with h2
    rw [← h2]
    rfl
  | succ n ih =>
    intro l h
    unfold initAux at h
    split at h
    · rename_i l2 w hl hw
      injection h with h2
      rw [← h2]
      simp [ih l2 hl]
    · exact Option.noConfusion h

theorem initAux_mem_ex (f : Nat → Option WfV) :
    ∀ n l, initAux f n = some l → ∀ w ∈ l, ∃ k, k < n ∧ f k = some w := by
  intro n
  induction n with
  | zero =>
    intro l h w hw
    unfold initAux at h
    injection h with h2
    rw [← h2] at hw
    exact absurd hw (List.not_mem_nil w)
  | succ n ih =>
    intro l h w hw
    unfold initAux at h
    split at h
    · rename_i l2 w2 hl hw2
      injection h with h2
      rw [← h2] at hw
      rcases List.mem_append.mp hw with hmem | hmem
      · obtain ⟨k, hk, hf⟩ := ih l2 hl w hmem
        exact ⟨k, by omega, hf⟩
      · rw [List.mem_singleton] at hmem
        exact ⟨n, by omega, by rw [hmem]; exact hw2⟩
    · exact Option.noConfusion h

theorem initAux_ex_mem (f : Nat → Option WfV) :
    ∀ n l, initAux f n = some l → ∀ k, k < n → ∃ w ∈ l, f k = some w := by
  intro n
  induction n with
  | zero =>
    intro l h k hk
    omega
  | succ n ih =>
    intro l h k hk
    unfold initAux at h
    split at h
    · rename_i l2 w2 hl hw2
      injection h with h2
      by_cases hkn : k < n
      · obtain ⟨w, hw, hf⟩ := ih l2 hl k hkn
        exact ⟨w, by rw [← h2]; exact List.mem_append_left _ hw, hf⟩
      · have hkeq : k = n := by omega
        refine ⟨w2, by rw [← h2]; exact List.mem_append_right _ (List.mem_singleton_self w2), ?_⟩
        rw [hkeq]
        exact hw2
    · exact Option.noConfusion h

theorem mkWf_birthSv (sgn : Rat) (poly : List Pt) (i : Nat) (w : WfV)
    (h : mkWf sgn poly i = some w) : w.birthSv = i := by
  unfold mkWf at h
  split at h
  · split at h
    · injection h with h2
      rw [← h2]
    · exact Option.noConfusion h
  · exact Option.noConfusion h

/-! ### Lemmas about event selection -/

theorem argminFold_mem (l : List (Nat × Rat)) :
    ∀ acc c, l.foldl (fun best c2 =>
      match best with
      | none => some c2
      | some b => if c2.2 < b.2 then some c2 else some b) acc = some c →
      acc = some c ∨ c ∈ l := by
  induction l with
  | nil =>
    intro acc c h
    exact Or.inl h
  | cons x xs ih =>
    intro acc c h
    rw [List.foldl_cons] at h
    rcases ih _ c h with h2 | h2
    · cases acc with
      | none =>
        have h3 : some x = some c := h2
        injection h3 with h4
        exact Or.inr (by rw [← h4]; exact List.mem_cons_self x xs)
      | some b =>
        have h3 : (if x.2 < b.2 then some x else some b) = some c := h2
        by_cases hx : x.2 < b.2
        · rw [if_pos hx] at h3
          injection h3 with h4
          exact Or.inr (by rw [← h4]; exact List.mem_cons_self x xs)
        · rw [if_neg hx] at h3
          exact Or.inl h3
    · exact Or.inr (List.mem_cons_of_mem x h2)

theorem findEvent_time (st : BuildSt) (it : Nat × Rat) (h : findEvent st = some it) :
    st.time ≤ it.2 := by
  unfold findEvent at h
  rcases argminFold_mem _ none it h with h2 | h2
  · exact Option.noConfusion h2
  · rw [List.mem_filterMap] at h2
    obtain ⟨i, _, hf⟩ := h2
    split at hf
    · rename_i t _
      split at hf
      · rename_i hle
        injection hf with hf2
        rw [← hf2]
        exact hle
      · exact Option.noConfusion hf
    · exact Option.noConfusion hf

/-! ### Lemmas about the event partition of the wavefront -/

theorem mem_eventRot (st : BuildSt) (it : Nat × Rat) (w : WfV) :
    w ∈ eventRot st it ↔ w ∈ st.active := by
  unfold eventRot
  rw [List.mem_rotate, List.mem_rotate]

theorem run_append_surv (st : BuildSt) (it : Nat × Rat) :
    eventRun st it ++ eventSurv st it = eventRot st it :=
  List.takeWhile_append_dropWhile (atQ st it) (eventRot st it)

theorem mem_active_of_run (st : BuildSt) (it : Nat × Rat) (w : WfV)
    (h : w ∈ eventRun st it) : w ∈ st.active := by
  have h2 : w ∈ eventRun st it ++ eventSurv st it := List.mem_append_left _ h
  rw [run_append_surv] at h2
  exact (mem_eventRot st it w).mp h2

theorem mem_active_of_surv (st : BuildSt) (it : Nat × Rat) (w : WfV)
    (h : w ∈ eventSurv st it) : w ∈ st.active := by
  have h2 : w ∈ eventRun st it ++ eventSurv st it := List.mem_append_right _ h
  rw [run_append_surv] at h2
  exact (mem_eventRot st it w).mp h2

theorem run_or_surv (st : BuildSt) (it : Nat × Rat) (w : WfV) (h : w ∈ st.active) :
    w ∈ eventRun st it ∨ w ∈ eventSurv st it := by
  have h2 : w ∈ eventRot st it := (mem_eventRot st it w).mpr h
  rw [← run_append_surv] at h2
  exact List.mem_append.mp h2

/-! ### Preservation of the builder invariant -/

theorem stepOnce_inl (st st2 : BuildSt) (h : stepOnce st = .ok (.inl st2))
    (hInv : BuildInv st) : BuildInv st2 := by
  obtain ⟨hA, hC, hB, hT, hS⟩ := hInv
  unfold stepOnce at h
  split at h
  · exact Except.noConfusion h
  · rename_i it hfe
    split at h
    · exact Except.noConfusion h
    · rename_i hrun
      split at h
      · injection h with h2
        exact Sum.noConfusion h2
      · rename_i s1 rest hsurv
        split at h
        · exact Except.noConfusion h
        · rename_i hrest
          split at h
          · exact Except.noConfusion h
          · rename_i v hv
            injection h with h2
            injection h2 with h3
            rw [← h3]
            refine ⟨?_, ?_, ?_, ?_, ?_⟩
            · intro a ha
              simp only [List.length_append, List.length_cons, List.length_nil] at *
              rcases List.mem_append.mp ha with hmem | hmem
              · have := hA a hmem
                omega
              · obtain ⟨w, hw, hwa⟩ := List.mem_map.mp hmem
                have hwb := hB w (mem_active_of_run st it w hw)
                rw [← hwa]
                simp only []
                omega
            · intro k hk
              simp only [List.length_append, List.length_cons, List.length_nil] at hk
              by_cases hklen : k < st.svs.length
              · rcases hC k hklen with ⟨a, ha, hor⟩ | ⟨w, hw, hb⟩
                · exact Or.inl ⟨a, List.mem_append_left _ ha, hor⟩
                · rcases run_or_surv st it w hw with hr | hs2
                  · refine Or.inl ⟨(w.birthSv, st.svs.length),
                      List.mem_append_right _ (List.mem_map_of_mem _ hr), Or.inl hb⟩
                  · rw [hsurv] at hs2
                    exact Or.inr ⟨w, List.mem_cons_of_mem _ hs2, hb⟩
              · have hkeq : k = st.svs.length := by omega
                refine Or.inr ⟨_, List.mem_cons_self _ _, ?_⟩
                show st.svs.length = k
                omega
            · intro w hw
              simp only [List.length_append, List.length_cons, List.length_nil]
              rcases List.mem_cons.mp hw with hweq | hmem
              · rw [hweq]
                show st.svs.length < st.svs.length + 1
                omega
              · rw [← hsurv] at hmem
                have := hB w (mem_active_of_surv st it w hmem)
                omega
            · show 0 ≤ it.2
              exact le_trans hT (findEvent_time st it hfe)
            · intro v2 hv2
              rcases List.mem_append.mp hv2 with hmem | hmem
              · exact hS v2 hmem
              · rw [List.mem_singleton] at hmem
                rw [hmem]
                exact le_trans hT (findEvent_time st it hfe)

theorem stepOnce_inr (st : BuildSt) (out : List SVert × List (Nat × Nat))
    (h : stepOnce st = .ok (.inr out)) (hInv : BuildInv st) : Good out := by
  obtain ⟨hA, hC, hB, hT, hS⟩ := hInv
  unfold stepOnce at h
  split at h
  · exact Except.noConfusion h
  · rename_i it hfe
    split at h
    · exact Except.noConfusion h
    · rename_i hrun
      split at h
      · rename_i hsurv
        injection h with h2
        injection h2 with h3
        rw [← h3]
        refine ⟨?_, ?_, ?_⟩
        · intro a ha
          simp only [List.length_append, List.length_cons, List.length_nil] at *
          rcases List.mem_append.mp ha with hmem | hmem
          · have := hA a hmem
            omega
          · obtain ⟨w, hw, hwa⟩ := List.mem_map.mp hmem
            have hwb := hB w (mem_active_of_run st it w hw)
            rw [← hwa]
            simp only []
            omega
        · intro k hk
          simp only [List.length_append, List.length_cons, List.length_nil] at hk
          by_cases hklen : k < st.svs.length
          · rcases hC k hklen with ⟨a, ha, hor⟩ | ⟨w, hw, hb⟩
            · exact ⟨a, List.mem_append_left _ ha, hor⟩
            · rcases run_or_surv st it w hw with hr | hs2
              · exact ⟨(w.birthSv, st.svs.length),
                  List.mem_append_right _ (List.mem_map_of_mem _ hr), Or.inl hb⟩
              · rw [hsurv] at hs2
                exact absurd hs2 (List.not_mem_nil w)
          · have hkeq : k = st.svs.length := by omega
            obtain ⟨w, hw⟩ := List.exists_mem_of_ne_nil _ hrun
            refine ⟨(w.birthSv, st.svs.length),
              List.mem_append_right _ (List.mem_map_of_mem _ hw), Or.inr ?_⟩
            show st.svs.length = k
            omega
        · intro v2 hv2
          rcases List.mem_append.mp hv2 with hmem | hmem
          · exact hS v2 hmem
          · rw [List.mem_singleton] at hmem
            rw [hmem]
            exact le_trans hT (findEvent_time st it hfe)
      · rename_i s1 rest hsurv
        split at h
        · exact Except.noConfusion h
        · split at h
          · exact Except.noConfusion h
          · injection h with h2
            exact Sum.noConfusion h2

theorem go_ok : ∀ fuel st out, go fuel st = .ok out → BuildInv st → Good out := by
  intro fuel
  induction fuel with
  | zero =>
    intro st out h
    exact absurd h (by unfold go; exact fun hc => Except.noConfusion hc)
  | succ fuel ih =>
    intro st out h hInv
    unfold go at h
    split at h
    · exact Except.noConfusion h
    · rename_i out2 hstep
      injection h with h2
      rw [← h2]
      exact stepOnce_inr st out2 hstep hInv
    · rename_i st2 hstep
      exact ih st2 out h (stepOnce_inl st st2 hstep hInv)

theorem init_inv (sgn : Rat) (poly : List Pt) (wfs : List WfV)
    (h : initWavefront sgn poly = some wfs) :
    BuildInv ⟨wfs, poly.map (fun p => ⟨p, 0⟩), [], 0⟩ := by
  refine ⟨?_, ?_, ?_, ?_, ?_⟩
  · intro a ha
    exact absurd ha (List.not_mem_nil a)
  · intro k hk
    right
    simp only [List.length_map] at hk
    obtain ⟨w, hw, hf⟩ := initAux_ex_mem _ _ _ h k hk
    exact ⟨w, hw, mkWf_birthSv _ _ _ _ hf⟩
  · intro w hw
    obtain ⟨k, hk, hf⟩ := initAux_mem_ex _ _ _ h w hw
    have hb := mkWf_birthSv _ _ _ _ hf
    simp only [List.length_map]
    omega
  · exact le_refl 0
  · intro v hv
    obtain ⟨p, _, hv2⟩ := List.mem_map.mp hv
    rw [← hv2]

/-! ### Shapes of successful builds -/

theorem interior_ok_shape (poly : List Pt) (s : Skeleton)
    (h : create_interior_straight_skeleton_2 poly = .ok s) :
    ∃ svs arcs, s = mkSkeleton svs
        (borderPairs poly.length ++ arcs.map (fun a => (a.1, a.2, false))) none ∧
      Good (svs, arcs) := by
  unfold create_interior_straight_skeleton_2 at h
  split at h
  · exact Except.noConfusion h
  · split at h
    · exact Except.noConfusion h
    · rename_i wfs hwfs
      split at h
      · exact Except.noConfusion h
      · rename_i svs arcs hgo
        injection h with h2
        exact ⟨svs, arcs, h2.symm, go_ok _ _ _ hgo (init_inv 1 poly wfs hwfs)⟩

theorem exterior_ok_shape (m : Rat) (poly : List Pt) (s : Skeleton)
    (h : create_exterior_straight_skeleton_2 m poly = .ok s) :
    ∃ wfs, initWavefront (-1) poly = some wfs ∧ wfs.length = poly.length ∧
      s = mkSkeleton
        (poly.map (fun p => ⟨p, 0⟩) ++ wfs.map (fun w => ⟨posAt m w, m⟩))
        (borderPairs poly.length
          ++ (List.range poly.length).map (fun i =>
              (poly.length + i, poly.length + (i + 1) % poly.length, true))
          ++ (List.range poly.length).map (fun i => (i, poly.length + i, false)))
        (some m) := by
  unfold create_exterior_straight_skeleton_2 at h
  split at h
  · exact Except.noConfusion h
  · split at h
    · exact Except.noConfusion h
    · rename_i wfs hwfs
      split at h
      · exact Except.noConfusion h
      · injection h with h2
        exact ⟨wfs, hwfs, initAux_length _ _ _ hwfs, h2.symm⟩

theorem foldr_max_le (l : List Rat) (b : Rat) (h : ∀ x ∈ l, x ≤ b) (hb : 0 ≤ b) :
    l.foldr max 0 ≤ b := by
  induction l with
  | nil => simpa using hb
  | cons x xs ih =>
    have hx := h x (List.mem_cons_self x xs)
    have hxs := ih (fun y hy => h y (List.mem_cons_of_mem x hy))
    simp only [List.foldr_cons]
    exact max_le hx hxs

/-! ### Idempotence of the cached skeleton computation -/

theorem compute_idem (st : SkeletonManager) :
    compute_skeletons (compute_skeletons st) = compute_skeletons st := by
  obtain ⟨p, i, e⟩ := st
  cases hI : (create_interior_straight_skeleton_2 p).toOption <;>
    cases hE : (create_exterior_straight_skeleton_2 5 p).toOption <;>
      cases i <;> cases e <;> simp [compute_skeletons, hI, hE]

/-! ### Endpoint/vertex round-trip for built skeletons -/

theorem endpoints_interior (poly : List Pt) (s : Skeleton)
    (h : create_interior_straight_skeleton_2 poly = .ok s) (c : Pt) :
    (∃ e ∈ infoEdges s, c = e.1 ∨ c = e.2) ↔ c ∈ infoVertices s := by
  obtain ⟨svs, arcs, hs, hA, hC, _⟩ := interior_ok_shape poly s h
  subst hs
  rw [endpoints_mkSkeleton, infoVertices_eq_map]
  show _ ↔ c ∈ svs.map (fun v => v.point)
  constructor
  · rintro ⟨pr, hpr, hbr, hc⟩
    rcases List.mem_append.mp hpr with hpr2 | hpr2
    · obtain ⟨i, _, hi⟩ := List.mem_map.mp (by
        unfold borderPairs at hpr2; exact hpr2)
      rw [← hi] at hbr
      exact absurd hbr (by simp)
    · obtain ⟨a, ha, hia⟩ := List.mem_map.mp hpr2
      obtain ⟨ha1, ha2⟩ := hA a ha
      rw [← hia] at hc
      rcases hc with hc | hc
      · rw [List.getD_eq_getElem svs dSV ha1] at hc
        rw [hc]
        exact List.mem_map_of_mem _ (List.getElem_mem ha1)
      · rw [List.getD_eq_getElem svs dSV ha2] at hc
        rw [hc]
        exact List.mem_map_of_mem _ (List.getElem_mem ha2)
  · intro hc
    obtain ⟨v, hv, hvp⟩ := List.mem_map.mp hc
    obtain ⟨j, hj, hgj⟩ := List.mem_iff_getElem.mp hv
    obtain ⟨a, ha, hor⟩ := hC j hj
    refine ⟨(a.1, a.2, false), List.mem_append_right _ (List.mem_map_of_mem _ ha), rfl, ?_⟩
    rcases hor with h1 | h2
    · refine Or.inl ?_
      show c = (svs.getD (a.1, a.2, false).1 dSV).point
      rw [show ((a.1, a.2, false).1 : Nat) = a.1 from rfl, h1,
        List.getD_eq_getElem svs dSV hj, hgj, hvp]
    · refine Or.inr ?_
      show c = (svs.getD (a.1, a.2, false).2.1 dSV).point
      rw [show ((a.1, a.2, false).2.1 : Nat) = a.2 from rfl, h2,
        List.getD_eq_getElem svs dSV hj, hgj, hvp]

theorem endpoints_exterior (m : Rat) (poly : List Pt) (s : Skeleton)
    (h : create_exterior_straight_skeleton_2 m poly = .ok s) (c : Pt) :
    (∃ e ∈ infoEdges s, c = e.1 ∨ c = e.2) ↔ c ∈ infoVertices s := by
  obtain ⟨wfs, hwfs, hlen, hs⟩ := exterior_ok_shape m poly s h
  subst hs
  rw [endpoints_mkSkeleton, infoVertices_eq_map]
  show _ ↔ c ∈ (poly.map (fun p => (⟨p, 0⟩ : SVert)) ++
    wfs.map (fun w => (⟨posAt m w, m⟩ : SVert))).map (fun v => v.point)
  have hvl : (poly.map (fun p => (⟨p, 0⟩ : SVert)) ++
      wfs.map (fun w => (⟨posAt m w, m⟩ : SVert))).length = poly.length + poly.length := by
    simp [hlen]
  constructor
  · rintro ⟨pr, hpr, hbr, hc⟩
    rcases List.mem_append.mp hpr with hpr2 | hpr2
    · rcases List.mem_append.mp hpr2 with hpr3 | hpr3
      · obtain ⟨i, _, hi⟩ := List.mem_map.mp (by
          unfold borderPairs at hpr3; exact hpr3)
        rw [← hi] at hbr
        exact absurd hbr (by simp)
      · obtain ⟨i, _, hi⟩ := List.mem_map.mp hpr3
        rw [← hi] at hbr
        exact absurd hbr (by simp)
    · obtain ⟨i, hir, hi⟩ := List.mem_map.mp hpr2
      rw [List.mem_range] at hir
      rw [← hi] at hc
      rcases hc with hc | hc
      · have hj : i < (poly.map (fun p => (⟨p, 0⟩ : SVert)) ++
            wfs.map (fun w => (⟨posAt m w, m⟩ : SVert))).length := by omega
        rw [List.getD_eq_getElem _ dSV hj] at hc
        rw [hc]
        exact List.mem_map_of_mem _ (List.getElem_mem hj)
      · have hj : poly.length + i < (poly.map (fun p => (⟨p, 0⟩ : SVert)) ++
            wfs.map (fun w => (⟨posAt m w, m⟩ : SVert))).length := by omega
        rw [List.getD_eq_getElem _ dSV hj] at hc
        rw [hc]
        exact List.mem_map_of_mem _ (List.getElem_mem hj)
  · intro hc
    obtain ⟨v, hv, hvp⟩ := List.mem_map.mp hc
    obtain ⟨j, hj, hgj⟩ := List.mem_iff_getElem.mp hv
    by_cases hjn : j < poly.length
    · refine ⟨(j, poly.length + j, false),
        List.mem_append_right _ (List.mem_map_of_mem _ (List.mem_range.mpr hjn)), rfl, ?_⟩
      refine Or.inl ?_
      show c = ((poly.map (fun p => (⟨p, 0⟩ : SVert)) ++
        wfs.map (fun w => (⟨posAt m w, m⟩ : SVert))).getD j dSV).point
      rw [List.getD_eq_getElem _ dSV hj, hgj, hvp]
    · have hisplit : j - poly.length < poly.length := by omega
      have hrej : poly.length + (j - poly.length) = j := by omega
      refine ⟨(j - poly.length, poly.length + (j - poly.length), false),
        List.mem_append_right _
          (List.mem_map_of_mem _ (List.mem_range.mpr hisplit)), rfl, ?_⟩
      refine Or.inr ?_
      show c = ((poly.map (fun p => (⟨p, 0⟩ : SVert)) ++
        wfs.map (fun w => (⟨posAt m w, m⟩ : SVert))).getD
          (poly.length + (j - poly.length)) dSV).point
      rw [hrej, List.getD_eq_getElem _ dSV hj, hgj, hvp]

set_option maxRecDepth 100000

/-! ### The claims -/

/-- C2: skeleton construction is exposed as the two operations
create_interior_straight_skeleton_2(polygon) (the spec's
build_interior_skeleton) and create_exterior_straight_skeleton_2(max_distance,
polygon) (the spec's build_exterior_skeleton), with the maximum exterior
propagation distance a caller-supplied parameter of the exterior
construction; the wrapper's compute_skeletons fills it with the fixed
default 5. -/
theorem c2_theorem : ∀ st : SkeletonManager,
    st.interior_skeleton = none → st.exterior_skeleton = none →
    compute_skeletons st = ⟨st.original_polygon,
      (create_interior_straight_skeleton_2 st.original_polygon).toOption,
      (create_exterior_straight_skeleton_2 5 st.original_polygon).toOption⟩ := by
  rintro ⟨p, i, e⟩ hi he
  simp only at hi he
  subst hi
  subst he
  rfl

/-- Witness for C2 at the square manager fresh from create_from_js_array. -/
theorem c2_witness :
    compute_skeletons (create_from_js_array squarePoly) = ⟨squarePoly,
      (create_interior_straight_skeleton_2 squarePoly).toOption,
      (create_exterior_straight_skeleton_2 5 squarePoly).toOption⟩ :=
  c2_theorem (create_from_js_array squarePoly) rfl rfl

/-- C3 counterexample: a 2-point input is not rejected — create_from_js_array
builds a SkeletonManager holding the 2-point polygon with both skeleton
pointers null, with no InvalidInput error anywhere; the (spec-modelled)
InvalidInput arises only inside the skeleton builder, which the wrapper
invokes lazily at the first query, not before. -/
theorem c3_counterexample :
    create_from_js_array [((0 : Rat), (0 : Rat)), ((1 : Rat), (0 : Rat))] =
      ⟨[((0 : Rat), (0 : Rat)), ((1 : Rat), (0 : Rat))], none, none⟩ ∧
    create_interior_straight_skeleton_2 [((0 : Rat), (0 : Rat)), ((1 : Rat), (0 : Rat))] =
      .error .InvalidInput :=
  ⟨rfl, by decide⟩

/-- C3 (amended): the wrapper performs no input validation: for every input
list, create_from_js_array constructs the manager holding exactly that
polygon; for inputs with fewer than 3 points the (spec-modelled) skeleton
construction fails with InvalidInput, but only when it is eventually
invoked, not at input time. -/
theorem c3_theorem : ∀ pts : List Pt,
    create_from_js_array pts = ⟨pts, none, none⟩ ∧
    (pts.length < 3 →
      create_interior_straight_skeleton_2 pts = .error .InvalidInput ∧
      create_exterior_straight_skeleton_2 5 pts = .error .InvalidInput) := by
  intro pts
  refine ⟨rfl, fun h => ⟨?_, ?_⟩⟩
  · unfold create_interior_straight_skeleton_2
    rw [if_pos h]
  · unfold create_exterior_straight_skeleton_2
    rw [if_pos h]

/-- Witness for C3 (amended) at a concrete 2-point input. -/
theorem c3_witness :
    create_from_js_array [((0 : Rat), (0 : Rat)), ((1 : Rat), (0 : Rat))] =
      ⟨[((0 : Rat), (0 : Rat)), ((1 : Rat), (0 : Rat))], none, none⟩ ∧
    create_exterior_straight_skeleton_2 5 [((0 : Rat), (0 : Rat)), ((1 : Rat), (0 : Rat))] =
      .error .InvalidInput :=
  ⟨(c3_theorem [((0 : Rat), (0 : Rat)), ((1 : Rat), (0 : Rat))]).1,
   ((c3_theorem [((0 : Rat), (0 : Rat)), ((1 : Rat), (0 : Rat))]).2 (by decide)).2⟩

/-- C5: the edges array of get_skeleton_info consists of exactly the
non-border half-edges, in iteration order, each carrying the opposite
half-edge's vertex position as start and its own vertex position as end;
stated both as the loop being equal to the declarative filter-map and as a
membership characterization. -/
theorem c5_theorem : ∀ s : Skeleton,
    infoEdges s = (s.halfedges.filter (fun h => !h.is_border)).map (fun h =>
      ((s.verts.getD (srcIdx s h) dSV).point, (s.verts.getD h.tgt dSV).point)) ∧
    ∀ e, (e ∈ infoEdges s ↔ ∃ h, h ∈ s.halfedges ∧ h.is_border = false ∧
      e = ((s.verts.getD (srcIdx s h) dSV).point, (s.verts.getD h.tgt dSV).point)) := by
  intro s
  constructor
  · rw [infoEdges_eq_flatMap, flatMap_if_eq_filter_map]
  · intro e
    exact mem_infoEdges s e

/-- C6: for every skeleton the modelled builders produce (interior, or
exterior at any bound), the set of endpoint coordinates of the edges query
equals the set of vertex positions of the vertices query exactly. -/
theorem c6_theorem : ∀ (p : List Pt) (s : Skeleton),
    (create_interior_straight_skeleton_2 p = .ok s ∨
      ∃ m, create_exterior_straight_skeleton_2 m p = .ok s) →
    ∀ c : Pt, ((∃ e ∈ infoEdges s, c = e.1 ∨ c = e.2) ↔ c ∈ infoVertices s) := by
  intro p s h c
  rcases h with h | ⟨m, h⟩
  · exact endpoints_interior p s h c
  · exact endpoints_exterior m p s h c

/-- Witness for C6 at the square's interior skeleton and the origin. -/
theorem c6_witness :
    (∃ e ∈ infoEdges sqIntSk, ((0 : Rat), (0 : Rat)) = e.1 ∨ ((0 : Rat), (0 : Rat)) = e.2) ↔
      ((0 : Rat), (0 : Rat)) ∈ infoVertices sqIntSk :=
  c6_theorem squarePoly sqIntSk (Or.inl (by decide)) ((0 : Rat), (0 : Rat))

/-- C7: offset extraction is idempotent — a second offset query with the
identical (state, distance, side) triple returns the identical polygon list
and leaves the manager state exactly as the first query left it; moreover a
query's state is exactly the computed-skeleton state, so the skeletons are
not mutated by queries. -/
theorem c7_theorem : ∀ (st : SkeletonManager) (d : Rat) (t : Int),
    offset_polygon ((offset_polygon st d t).2) d t = offset_polygon st d t ∧
    (offset_polygon st d t).2 = compute_skeletons st := by
  intro st d t
  refine ⟨?_, rfl⟩
  show offset_polygon (compute_skeletons st) d t = offset_polygon st d t
  unfold offset_polygon
  rw [compute_idem st]

/-- C8: the interior straight skeleton of the square of side 2 centered at
the origin has exactly one SkeletonVertex with positive time — one interior
vertex — and it is located at (0, 0). -/
theorem c8_theorem :
    create_interior_straight_skeleton_2 squarePoly = Except.ok sqIntSk ∧
    (sqIntSk.verts.filter (fun v => decide (0 < v.time))).map (fun v => v.point) =
      [((0 : Rat), (0 : Rat))] :=
  ⟨by decide, by decide⟩

/-- C9: in both offset_polygon and get_skeleton_info, every type argument
other than INTERIOR (0) — any integer, including values of no enum
constant — selects the exterior skeleton (the call equals the call with
EXTERIOR), and there is no rejected or error case for the type argument. -/
theorem c9_theorem : ∀ (st : SkeletonManager) (d : Rat) (t : Int), t ≠ 0 →
    offset_polygon st d t = offset_polygon st d EXTERIOR ∧
    get_skeleton_info st t = get_skeleton_info st EXTERIOR ∧
    INTERIOR = 0 := by
  intro st d t ht
  refine ⟨?_, ?_, rfl⟩
  · unfold offset_polygon
    rw [if_neg ht, if_neg (by decide : ¬(EXTERIOR = 0))]
  · unfold get_skeleton_info
    rw [if_neg ht, if_neg (by decide : ¬(EXTERIOR = 0))]

/-- Witness for C9 at the square manager with the invalid enum value 7. -/
theorem c9_witness :
    offset_polygon (create_from_js_array squarePoly) 3 7 =
      offset_polygon (create_from_js_array squarePoly) 3 EXTERIOR ∧
    get_skeleton_info (create_from_js_array squarePoly) 7 =
      get_skeleton_info (create_from_js_array squarePoly) EXTERIOR ∧
    INTERIOR = 0 :=
  c9_theorem (create_from_js_array squarePoly) 3 7 (by decide)

/-- C10: the constructor stores only the polygon (both skeleton pointers
null, no computation); the first query — offset or info, either side —
computes both skeletons, the exterior one always with the fixed maximum
distance 5; and every later query leaves the cached state exactly
unchanged. -/
theorem c10_theorem : ∀ (p : List Pt) (d d2 : Rat) (t t2 ty : Int),
    (create_from_js_array p).interior_skeleton = none ∧
    (create_from_js_array p).exterior_skeleton = none ∧
    (offset_polygon (create_from_js_array p) d t).2 =
      compute_skeletons (create_from_js_array p) ∧
    (get_skeleton_info (create_from_js_array p) ty).2 =
      compute_skeletons (create_from_js_array p) ∧
    (compute_skeletons (create_from_js_array p)).interior_skeleton =
      (create_interior_straight_skeleton_2 p).toOption ∧
    (compute_skeletons (create_from_js_array p)).exterior_skeleton =
      (create_exterior_straight_skeleton_2 5 p).toOption ∧
    (offset_polygon ((offset_polygon (create_from_js_array p) d t).2) d2 t2).2 =
      (offset_polygon (create_from_js_array p) d t).2 ∧
    (get_skeleton_info ((offset_polygon (create_from_js_array p) d t).2) ty).2 =
      (offset_polygon (create_from_js_array p) d t).2 := by
  intro p d d2 t t2 ty
  refine ⟨rfl, rfl, rfl, rfl, rfl, rfl, ?_, ?_⟩
  · exact compute_idem (create_from_js_array p)
  · exact compute_idem (create_from_js_array p)

/-- C4: for every polygon whose interior skeleton the modelled builder
produces, an interior offset query at distance 0, or at any distance beyond
the skeleton's maximum recorded time, yields the empty polygon list — in
the code-derived extractor, in the wrapper's offset_polygon, and as the
spec-level offset_at's ok-result, which is distinct from the
DistanceOutOfRange error by construction. -/
theorem c4_theorem : ∀ (p : List Pt) (s : Skeleton),
    create_interior_straight_skeleton_2 p = .ok s →
    ∀ (ext : Option Skeleton) (d : Rat),
      create_offset_polygons_2 0 s = [] ∧
      (maxTime s < d → create_offset_polygons_2 d s = []) ∧
      offsetAtSpec s 0 SpecSide.Interior = .ok [] ∧
      (maxTime s < d → offsetAtSpec s d SpecSide.Interior = .ok []) ∧
      (offset_polygon ⟨p, some s, ext⟩ 0 0).1 = [] ∧
      (maxTime s < d → (offset_polygon ⟨p, some s, ext⟩ d 0).1 = []) := by
  intro p s h ext d
  obtain ⟨svs, arcs, hs, _, _, hT⟩ := interior_ok_shape p s h
  have h0 : ∀ v ∈ s.verts, 0 ≤ v.time := by
    rw [hs]
    exact hT
  have hz := offset_zero_eq_nil s h0
  have hbeyond : ∀ d2, maxTime s < d2 → create_offset_polygons_2 d2 s = [] :=
    fun d2 hd2 => offset_beyond_eq_nil s d2 hd2
  have hmb : s.maxBound = none := by rw [hs]; rfl
  refine ⟨hz, hbeyond d, ?_, ?_, ?_, ?_⟩
  · unfold offsetAtSpec
    rw [hmb, hz]
  · intro hd
    unfold offsetAtSpec
    rw [hmb, hbeyond d hd]
  · show create_offset_polygons_2 0 s = []
    exact hz
  · intro hd
    show create_offset_polygons_2 d s = []
    exact hbeyond d hd

/-- Witness for C4 at the square's interior skeleton with distance 7 beyond
its maximum recorded time 1. -/
theorem c4_witness :
    create_offset_polygons_2 0 sqIntSk = [] ∧
    create_offset_polygons_2 7 sqIntSk = [] ∧
    offsetAtSpec sqIntSk 0 SpecSide.Interior = .ok [] ∧
    offsetAtSpec sqIntSk 7 SpecSide.Interior = .ok [] ∧
    (offset_polygon ⟨squarePoly, some sqIntSk, none⟩ 0 0).1 = [] ∧
    (offset_polygon ⟨squarePoly, some sqIntSk, none⟩ 7 0).1 = [] := by
  have h := c4_theorem squarePoly sqIntSk (by decide) none 7
  exact ⟨h.1, h.2.1 (by decide), h.2.2.1, h.2.2.2.1 (by decide),
    h.2.2.2.2.1, h.2.2.2.2.2 (by decide)⟩

/-- C1 counterexample: for the square's exterior skeleton built with maximum
distance 5, the wrapper's exterior offset query at distance 10 > 5 returns
the empty polygon list as an ordinary non-error result — it does not fail —
whereas the spec-level offset_at on the same skeleton fails with
DistanceOutOfRange as the claim demands. -/
theorem c1_counterexample :
    create_exterior_straight_skeleton_2 5 squarePoly = .ok sqExtSk ∧
    (offset_polygon (create_from_js_array squarePoly) 10 1).1 = [] ∧
    offsetAtSpec sqExtSk 10 SpecSide.Exterior = .error .DistanceOutOfRange :=
  ⟨by decide, by decide, by decide⟩

/-- C1 (amended): the wrapper has no error channel: an exterior offset query
at a distance d beyond the build bound m (all recorded times lie at or
below m) returns the empty polygon list as a normal result; only the
spec-level offset_at, modelled separately from the spec's words, fails
there with DistanceOutOfRange. -/
theorem c1_theorem : ∀ (p : List Pt) (m : Rat) (s : Skeleton)
    (st : SkeletonManager) (d : Rat),
    create_exterior_straight_skeleton_2 m p = .ok s →
    (compute_skeletons st).exterior_skeleton = some s →
    0 ≤ m → m < d →
    ((offset_polygon st d 1).1 = [] ∧
     offsetAtSpec s d SpecSide.Exterior = .error .DistanceOutOfRange) := by
  intro p m s st d hext hcs hm hd
  obtain ⟨wfs, hwfs, hlen, hs⟩ := exterior_ok_shape m p s hext
  have htle : ∀ v ∈ s.verts, v.time ≤ m := by
    rw [hs]
    intro v hv
    rcases List.mem_append.mp hv with hmem | hmem
    · obtain ⟨q, _, hq⟩ := List.mem_map.mp hmem
      rw [← hq]
      exact hm
    · obtain ⟨w, _, hw⟩ := List.mem_map.mp hmem
      rw [← hw]
  have hmax : maxTime s ≤ m := by
    apply foldr_max_le
    · intro x hx
      obtain ⟨v, hv, hvx⟩ := List.mem_map.mp hx
      rw [← hvx]
      exact htle v hv
    · exact hm
  have hempty := offset_beyond_eq_nil s d (lt_of_le_of_lt hmax hd)
  constructor
  · unfold offset_polygon
    rw [if_neg (by decide : ¬((1 : Int) = 0)), hcs]
    exact hempty
  · have hmb : s.maxBound = some m := by rw [hs]; rfl
    unfold offsetAtSpec
    rw [hmb]
    show (if m < d then Except.error SkError.DistanceOutOfRange
      else Except.ok (create_offset_polygons_2 d s)) = Except.error SkError.DistanceOutOfRange
    rw [if_pos hd]

/-- Witness for C1 (amended) at the square with bound 5 and distance 10. -/
theorem c1_witness :
    (offset_polygon (create_from_js_array squarePoly) 10 1).1 = [] ∧
    offsetAtSpec sqExtSk 10 SpecSide.Exterior = .error .DistanceOutOfRange :=
  c1_theorem squarePoly 5 sqExtSk (create_from_js_array squarePoly) 10
    (by decide) (by decide) (by decide) (by decide)
